import Mathlib

/-!
Verification of the equity contract-language front end (`compiler/parse.go`).

The parser works over a byte buffer (Go `[]byte`); we model bytes as `Nat`
values below 256 and buffers as `List Nat`.  Go's `-1` "no match" sentinel
positions become `Option Nat`, and `panic(parserErr…)` together with the
`recover` in `parse` become an `Except parserErr` result.  Recursive-descent
loops are given explicit fuel; every theorem about a concrete input is stated
with enough fuel for that input.
-/

set_option maxRecDepth 100000

namespace Equity

/-- Bytes of an ASCII source string, as Go sees them. -/
def strBytes (s : String) : List Nat := s.data.map Char.toNat

/-- ASCII characters back from bytes (used when the scanner materialises a
Go `string` from a byte slice). -/
def strOfBytes (l : List Nat) : String := String.mk (l.map Char.ofNat)

/-- Go `unicode.IsSpace(rune(c))` restricted to byte input: the ASCII
whitespace characters plus NEL (0x85) and NBSP (0xA0), which `IsSpace`
accepts in the Latin-1 range. -/
def isSpaceByte (c : Nat) : Bool :=
  c == 9 || c == 10 || c == 11 || c == 12 || c == 13 || c == 32 || c == 133 || c == 160

/-- Go `unicode.IsDigit(rune(c))` on a byte: only ASCII `0`–`9` (Latin-1 has
no further decimal digits). -/
def isDigitByte (c : Nat) : Bool := 48 ≤ c && c ≤ 57

/-- `isHexDigit` from parse.go. -/
def isHexDigit (c : Nat) : Bool :=
  (48 ≤ c && c ≤ 57) || (97 ≤ c && c ≤ 102) || (65 ≤ c && c ≤ 70)

/-- `isIDChar` from parse.go. -/
def isIDChar (c : Nat) (initial : Bool) : Bool :=
  if 97 ≤ c && c ≤ 122 then true
  else if 65 ≤ c && c ≤ 90 then true
  else if c == 95 then true
  else if initial then false
  else isDigitByte c

/-- Loop body of `skipWsAndComments`, structurally recursive on the byte
suffix at the current position (`offset` stays the absolute position, so
`buf[offset]` is the suffix head and `offset < len(buf)-1` means the suffix
has a second element); `inComment` tracks being inside a `// …` comment. -/
def skipWsAux : List Nat → Nat → Bool → Nat
  | [], offset, _ => offset
  | c :: rest, offset, true =>
    if c == 10 then skipWsAux rest (offset + 1) false
    else skipWsAux rest (offset + 1) true
  | 47 :: 47 :: rest, offset, false => skipWsAux rest (offset + 2) true
  | c :: rest, offset, false =>
    if isSpaceByte c then skipWsAux rest (offset + 1) false else offset

/-- `skipWsAndComments` from parse.go. -/
def skipWsAndComments (buf : List Nat) (offset : Nat) : Nat :=
  skipWsAux (buf.drop offset) offset false

/-- A parser error: `parserErr` from parse.go, with the format string and its
arguments already rendered to `msg` (the `Error` method prepends the
line/column prefix). -/
structure parserErr where
  buf : List Nat
  offset : Nat
  msg : String
  deriving DecidableEq, Repr

/-- `scanTok` from parse.go: skip whitespace, then match a literal token. -/
def scanTok (buf : List Nat) (offset : Nat) (s : String) : Option Nat :=
  let o := skipWsAndComments buf offset
  let pre := strBytes s
  if pre.isPrefixOf (buf.drop o) then some (o + pre.length) else none

/-- Identifier-run scan used by `scanIdentifier`: extend while `isIDChar`,
structurally over the byte suffix at absolute position `i`. -/
def scanIdentAux : List Nat → Nat → Nat → Nat
  | [], _, i => i
  | c :: rest, start, i =>
    if isIDChar c (i == start) then scanIdentAux rest start (i + 1) else i

/-- `scanIdentifier` from parse.go. -/
def scanIdentifier (buf : List Nat) (offset : Nat) : Option (String × Nat) :=
  let o := skipWsAndComments buf offset
  let i := scanIdentAux (buf.drop o) o o
  if o < i then some (strOfBytes ((buf.drop o).take (i - o)), i) else none

/-- `scanKeyword` from parse.go. -/
def scanKeyword (buf : List Nat) (offset : Nat) (keyword : String) : Option Nat :=
  match scanIdentifier buf offset with
  | none => none
  | some (idStr, newOffset) => if idStr = keyword then some newOffset else none

/-- Decimal value of a digit-byte run, exactly as `strconv.ParseInt` computes
it for a base-10 literal. -/
def digitsVal (l : List Nat) : Nat := l.foldl (fun a d => a * 10 + (d - 48)) 0

/-- Digit loop of `scanIntLiteral`, structurally over the byte suffix at
absolute position `i`: advance over decimal digits, but abort (`none`) if a
digit `0` is immediately followed by `x`/`X` (the literal is a bytes literal
then; the Go guard `i < len(buf)-1` means the suffix has a second byte). -/
def scanDigitsHex : List Nat → Nat → Option Nat
  | [], i => some i
  | [c], i => if isDigitByte c then scanDigitsHex [] (i + 1) else some i
  | c :: d :: rest, i =>
    if isDigitByte c then
      if c == 48 && (d == 120 || d == 88) then none
      else scanDigitsHex (d :: rest) (i + 1)
    else some i

/-- `scanIntLiteral` from parse.go.  `strconv.ParseInt(_, 10, 64)` fails
exactly when the value is outside the signed 64-bit range, in which case the
scanner declines. -/
def scanIntLiteral (buf : List Nat) (offset : Nat) : Option (Int × Nat) :=
  let o := skipWsAndComments buf offset
  let start := o
  let o2 := if o < buf.length && buf.getD o 0 == 45 then o + 1 else o
  match scanDigitsHex (buf.drop o2) o2 with
  | none => none
  | some i =>
    if o2 < i then
      let n : Int := (if start < o2 then -1 else 1) * (digitsVal ((buf.drop o2).take (i - o2)) : Int)
      if -(2 ^ 63) ≤ n ∧ n ≤ 2 ^ 63 - 1 then some (n, i) else none
    else none

/-- `scanEscape` from parse.go. -/
def scanEscape (c : Nat) : Nat × Bool :=
  if c == 39 || c == 34 || c == 92 then (c, true)
  else if c == 98 then (8, true)
  else if c == 102 then (12, true)
  else if c == 110 then (10, true)
  else if c == 114 then (13, true)
  else if c == 116 then (9, true)
  else if c == 118 then (11, true)
  else (c, false)

/-- Character loop of `scanStrLiteral`, structurally over the byte suffix at
absolute position `i`; `quote` is the opening quote byte and `startOffset`
the literal's start (used in the unterminated-literal error, which carries
the whole buffer `buf`). -/
def scanStrAux (buf : List Nat) (quote startOffset : Nat) :
    List Nat → Nat → List Nat → Except parserErr (List Nat × Nat)
  | [], _, _ => .error ⟨buf, startOffset, "unterminated string literal"⟩
  | [c], i, acc =>
    if c == quote then .ok (acc, i + 1)
    else scanStrAux buf quote startOffset [] (i + 1) (acc ++ [c])
  | c :: d :: rest, i, acc =>
    if c == quote then .ok (acc, i + 1)
    else if c == 92 && (scanEscape d).2 then
      scanStrAux buf quote startOffset rest (i + 2) (acc ++ [(scanEscape d).1])
    else scanStrAux buf quote startOffset (d :: rest) (i + 1) (acc ++ [c])

/-- `scanStrLiteral` from parse.go. -/
def scanStrLiteral (buf : List Nat) (offset : Nat) :
    Except parserErr (Option (List Nat × Nat)) :=
  let o := skipWsAndComments buf offset
  if o < buf.length && (buf.getD o 0 == 39 || buf.getD o 0 == 34) then
    (scanStrAux buf (buf.getD o 0) o (buf.drop (o + 1)) (o + 1) []).map some
  else .ok none

/-- Hex-pair loop of `scanBytesLiteral`, structurally over the byte suffix at
absolute position `i`: step two digits at a time from `i = start + 4`;
`origOffset` is the literal's start, reported on the odd-digit error.
Mirrors the Go loop order: the end-of-buffer check `i == len(buf)-1` (the
suffix is a single byte) comes before the terminator check. -/
def scanHexPairs (buf : List Nat) (origOffset : Nat) :
    List Nat → Nat → Except parserErr Nat
  | [], i => .ok i
  | [_], _ => .error ⟨buf, origOffset, "odd number of digits in hex literal"⟩
  | a :: b :: rest, i =>
    if !isHexDigit a then .ok i
    else if !isHexDigit b then
      .error ⟨buf, origOffset, "odd number of digits in hex literal"⟩
    else scanHexPairs buf origOffset rest (i + 2)

/-- Value of one hex digit byte. -/
def hexDigitVal (c : Nat) : Nat :=
  if 48 ≤ c && c ≤ 57 then c - 48
  else if 97 ≤ c && c ≤ 102 then c - 87
  else if 65 ≤ c && c ≤ 70 then c - 55
  else 0

/-- `encoding/hex.Decode`: fails on odd length or a non-hex byte. -/
def hexDecode : List Nat → Option (List Nat)
  | [] => some []
  | [_] => none
  | a :: b :: rest =>
    if isHexDigit a && isHexDigit b then
      (hexDecode rest).map (fun r => (hexDigitVal a * 16 + hexDigitVal b) :: r)
    else none

/-- `scanBytesLiteral` from parse.go. -/
def scanBytesLiteral (buf : List Nat) (offset : Nat) :
    Except parserErr (Option (List Nat × Nat)) :=
  let o := skipWsAndComments buf offset
  if buf.length ≤ o + 4 then .ok none
  else if !(buf.getD o 0 == 48) ||
      (!(buf.getD (o + 1) 0 == 120) && !(buf.getD (o + 1) 0 == 88)) then .ok none
  else if !isHexDigit (buf.getD (o + 2) 0) || !isHexDigit (buf.getD (o + 3) 0) then .ok none
  else
    match scanHexPairs buf o (buf.drop (o + 4)) (o + 4) with
    | .error e => .error e
    | .ok i =>
      match hexDecode ((buf.drop (o + 2)).take (i - (o + 2))) with
      | some decoded => .ok (some (decoded, i))
      | none => .ok none

/-- `scanBoolLiteral` from parse.go. -/
def scanBoolLiteral (buf : List Nat) (offset : Nat) : Option (Bool × Nat) :=
  let o := skipWsAndComments buf offset
  if buf.length ≤ o then none
  else
    match scanKeyword buf o "true" with
    | some p => some (true, p)
    | none =>
      match scanKeyword buf o "false" with
      | some p => some (false, p)
      | none => none

/-- A binary operator descriptor.  Modelled from the spec: "Operators carry a
precedence level and a right-associative flag"; the package-level `binaryOps`
table itself is not under `src/`, so only the fields the parser reads (`op`,
`precedence`) plus the flag the spec names are represented. -/
structure binaryOp where
  op : String
  precedence : Nat
  rightAssoc : Bool
  deriving DecidableEq, Repr

/-- Modelled from the spec: the `binaryOps` table, precedence high to low:
`*`, `/`, `%`; `+`, `-`; `<`, `<=`, `>`, `>=`; `==`, `!=`; `&&`; `||`.
The spec marks no operator right-associative. -/
def binaryOps : List binaryOp :=
  [⟨"*", 6, false⟩, ⟨"/", 6, false⟩, ⟨"%", 6, false⟩,
   ⟨"+", 5, false⟩, ⟨"-", 5, false⟩,
   ⟨"<", 4, false⟩, ⟨"<=", 4, false⟩, ⟨">", 4, false⟩, ⟨">=", 4, false⟩,
   ⟨"==", 3, false⟩, ⟨"!=", 3, false⟩,
   ⟨"&&", 2, false⟩, ⟨"||", 1, false⟩]

/-- Modelled from the spec: the `unaryOps` table (`-` and `!`); it is not
under `src/` and only the token strings matter to the scanner. -/
def unaryOps : List String := ["-", "!"]

/-- Table-walk of `scanUnaryOp`: first matching operator wins. -/
def scanUnaryOpAux (buf : List Nat) (offset : Nat) : List String → Option (String × Nat)
  | [] => none
  | op :: rest =>
    match scanTok buf offset op with
    | some p => some (op, p)
    | none => scanUnaryOpAux buf offset rest

/-- `scanUnaryOp` from parse.go: maximum munch — decline whenever an integer
literal starts here, so that `-3` scans as a literal, not `-` applied to `3`. -/
def scanUnaryOp (buf : List Nat) (offset : Nat) : Option (String × Nat) :=
  if (scanIntLiteral buf offset).isSome then none
  else scanUnaryOpAux buf offset unaryOps

/-- Table-walk of `scanBinaryOp`: keep the first operator of maximal token
length that matches (`>` comparison, so earlier entries win ties). -/
def scanBinaryOpAux (buf : List Nat) (o : Nat) :
    List binaryOp → Option (binaryOp × Nat) → Option (binaryOp × Nat)
  | [], found => found
  | op :: rest, found =>
    match scanTok buf o op.op with
    | some p =>
      match found with
      | none => scanBinaryOpAux buf o rest (some (op, p))
      | some (f, q) =>
        if f.op.length < op.op.length then scanBinaryOpAux buf o rest (some (op, p))
        else scanBinaryOpAux buf o rest (some (f, q))
    | none => scanBinaryOpAux buf o rest found

/-- `scanBinaryOp` from parse.go, with the operator table as an explicit
argument standing for the package-level `binaryOps`. -/
def scanBinaryOp (ops : List binaryOp) (buf : List Nat) (offset : Nat) :
    Option (binaryOp × Nat) :=
  let o := skipWsAndComments buf offset
  scanBinaryOpAux buf o ops none

/-- The expression AST (ast.go is not under `src/`; the variants are modelled
from the spec's data model: varRef, intLit, boolLit, bytesLit, listLit, call,
unary, binary). -/
inductive Expr where
  | varRef (name : String)
  | intLit (n : Int)
  | boolLit (b : Bool)
  | bytesLit (bs : List Nat)
  | listExpr (elts : List Expr)
  | callExpr (fn : Expr) (args : List Expr)
  | unaryExpr (op : String) (e : Expr)
  | binaryExpr (op : binaryOp) (left right : Expr)
  deriving Repr

/-- `scanLiteralExpr` from parse.go: integer, then string, then hex-bytes,
then boolean. -/
def scanLiteralExpr (buf : List Nat) (offset : Nat) :
    Except parserErr (Option (Expr × Nat)) := do
  match scanIntLiteral buf offset with
  | some (n, p) => return some (.intLit n, p)
  | none =>
    match ← scanStrLiteral buf offset with
    | some (bs, p) => return some (.bytesLit bs, p)
    | none =>
      match ← scanBytesLiteral buf offset with
      | some (bs, p) => return some (.bytesLit bs, p)
      | none =>
        match scanBoolLiteral buf offset with
        | some (b, p) => return some (.boolLit b, p)
        | none => return none

/-- Type descriptors.  Modelled from the spec's closed type-tag set (the
`types` table lives outside `src/`). -/
inductive TypeDesc where
  | asset | amount | boolean | hashT | integer | progT | publicKey | signature | strT | timeT
  deriving DecidableEq, Repr

/-- Modelled from the spec: the package-level `types` table mapping type
names to descriptors. -/
def types : List (String × TypeDesc) :=
  [("Amount", .amount), ("Asset", .asset), ("Boolean", .boolean), ("Hash", .hashT),
   ("Integer", .integer), ("Program", .progT), ("PublicKey", .publicKey),
   ("Signature", .signature), ("String", .strT), ("Time", .timeT)]

/-- `Param` from ast.go (modelled from the spec: `(name, typeTag)`). -/
structure Param where
  name : String
  type : TypeDesc
  deriving DecidableEq, Repr

/-- Statements (modelled from the spec's statement variants; the concrete
statement structs are outside `src/`). -/
inductive Stmt where
  | ifStmt (condition : Expr) (trueBody falseBody : List Stmt)
  | defineStmt (param : Param) (expr : Option Expr)
  | assignStmt (name : String) (expr : Expr)
  | verifyStmt (expr : Expr)
  | lockStmt (lockedAmount lockedAsset program : Expr)
  | unlockStmt (unlockedAmount unlockedAsset : Expr)
  deriving Repr

/-- `ValueInfo` from ast.go (modelled from the spec: the locked
`(amountName, assetName)` pair). -/
structure ValueInfo where
  amount : String
  asset : String
  deriving DecidableEq, Repr

/-- `Clause` from ast.go (modelled from the spec). -/
structure Clause where
  name : String
  params : List Param
  statements : List Stmt
  deriving Repr

/-- `Contract` from ast.go (modelled from the spec; the compiled-body fields
filled by later phases are omitted, the parser never sets them). -/
structure Contract where
  name : String
  params : List Param
  clauses : List Clause
  value : ValueInfo
  deriving Repr

/-- The `parser` struct from parse.go. -/
structure Parser where
  buf : List Nat
  pos : Nat
  deriving DecidableEq, Repr

/-- `peekKeyword` from parse.go: the next identifier, or `""` when none. -/
def peekKeyword (p : Parser) : String :=
  ((scanIdentifier p.buf p.pos).map Prod.fst).getD ""

/-- `peekTok` from parse.go. -/
def peekTok (p : Parser) (token : String) : Bool :=
  (scanTok p.buf p.pos token).isSome

/-- `consumeKeyword` from parse.go; `p.errorf` becomes an `Except.error` at
the parser's current position. -/
def consumeKeyword (p : Parser) (keyword : String) : Except parserErr Parser :=
  match scanKeyword p.buf p.pos keyword with
  | none => .error ⟨p.buf, p.pos, "expected keyword " ++ keyword⟩
  | some pos => .ok { p with pos := pos }

/-- `consumeIdentifier` from parse.go. -/
def consumeIdentifier (p : Parser) : Except parserErr (String × Parser) :=
  match scanIdentifier p.buf p.pos with
  | none => .error ⟨p.buf, p.pos, "expected identifier"⟩
  | some (name, pos) => .ok (name, { p with pos := pos })

/-- `consumeTok` from parse.go. -/
def consumeTok (p : Parser) (token : String) : Except parserErr Parser :=
  match scanTok p.buf p.pos token with
  | none => .error ⟨p.buf, p.pos, "expected " ++ token ++ " token"⟩
  | some pos => .ok { p with pos := pos }

/-- Fuel-exhaustion marker (the Go code recurses without bound; all theorems
supply enough fuel that this error never surfaces). -/
def fuelErr (p : Parser) : parserErr := ⟨p.buf, p.pos, "fuel exhausted"⟩

/-- The expression-parsing functions, gathered so that the mutual recursion of
parse.go can be expressed as a structurally decreasing iteration on fuel
(one fuel level is consumed per call, including loop iterations). -/
structure ExprFns where
  expr : Parser → Except parserErr (Expr × Parser)
  unary : Parser → Except parserErr (Expr × Parser)
  cont : Parser → Expr → Nat → Except parserErr (Option (Expr × Parser))
  contInner : Parser → Expr → binaryOp → Except parserErr (Option (Expr × Parser))
  e2 : Parser → Except parserErr (Expr × Parser)
  e3 : Parser → Except parserErr (Expr × Parser)
  e4 : Parser → Except parserErr (Expr × Parser)
  listLoop : Parser → List Expr → Bool → Except parserErr (List Expr × Parser)
  args : Parser → Except parserErr (List Expr × Parser)
  argsLoop : Parser → List Expr → Bool → Except parserErr (List Expr × Parser)

/-- Out-of-fuel bottom of the expression layer. -/
def exprFnsFail : ExprFns where
  expr p := .error (fuelErr p)
  unary p := .error (fuelErr p)
  cont p _ _ := .error (fuelErr p)
  contInner p _ _ := .error (fuelErr p)
  e2 p := .error (fuelErr p)
  e3 p := .error (fuelErr p)
  e4 p := .error (fuelErr p)
  listLoop p _ _ := .error (fuelErr p)
  args p := .error (fuelErr p)
  argsLoop p _ _ := .error (fuelErr p)

/-- One level of the expression parsers, each body transcribed from parse.go;
`ops` stands for the package-level `binaryOps` table.

* `expr` is `parseExpr` (precedence-climbing entry);
* `unary` is `parseUnaryExpr`;
* `cont` is `parseExprCont` (its `none` models the dead `(nil, -1)` return);
* `contInner` is the inner `for` loop of `parseExprCont` — the operator
  token is only re-scanned, never consumed there, exactly as in the source;
* `e2`–`e4` are `parseExpr2`–`parseExpr4`;
* `listLoop` is the `[ … ]` element loop inside `parseExpr4`;
* `args`/`argsLoop` are `parseArgs` and its loop. -/
def exprFnsStep (ops : List binaryOp) (prev : ExprFns) : ExprFns where
  expr p := do
    let (e, p) ← prev.unary p
    match ← prev.cont p e 0 with
    | none => .error ⟨p.buf, p.pos, "expected expression"⟩
    | some (e2, p2) => .ok (e2, p2)
  unary p :=
    match scanUnaryOp p.buf p.pos with
    | none => prev.e2 p
    | some (op, pos) => do
      let (e, p2) ← prev.unary { p with pos := pos }
      .ok (Expr.unaryExpr op e, p2)
  cont p lhs minPrecedence :=
    match scanBinaryOp ops p.buf p.pos with
    | none => .ok (some (lhs, p))
    | some (op, pos) =>
      if op.precedence < minPrecedence then .ok (some (lhs, p))
      else do
        let (rhs, p2) ← prev.unary { p with pos := pos }
        match ← prev.contInner p2 rhs op with
        | none => .ok none
        | some (rhs2, p3) => prev.cont p3 (Expr.binaryExpr op lhs rhs2) minPrecedence
  contInner p rhs op :=
    match scanBinaryOp ops p.buf p.pos with
    | none => .ok (some (rhs, p))
    | some (op2, _) =>
      if op2.precedence ≤ op.precedence then .ok (some (rhs, p))
      else do
        match ← prev.cont p rhs op2.precedence with
        | none => .ok none
        | some (rhs2, p2) => prev.contInner p2 rhs2 op
  e2 p := do
    match ← scanLiteralExpr p.buf p.pos with
    | some (e, pos) => .ok (e, { p with pos := pos })
    | none => prev.e3 p
  e3 p := do
    let (e, p2) ← prev.e4 p
    if peekTok p2 "(" then
      let (args, p3) ← prev.args p2
      .ok (Expr.callExpr e args, p3)
    else .ok (e, p2)
  e4 p :=
    if peekTok p "(" then do
      let p ← consumeTok p "("
      let (e, p) ← prev.expr p
      let p ← consumeTok p ")"
      .ok (e, p)
    else if peekTok p "[" then do
      let p ← consumeTok p "["
      let (elts, p) ← prev.listLoop p [] true
      let p ← consumeTok p "]"
      .ok (Expr.listExpr elts, p)
    else do
      let (name, p) ← consumeIdentifier p
      .ok (Expr.varRef name, p)
  listLoop p elts first :=
    if peekTok p "]" then .ok (elts, p)
    else do
      let p ← if first then pure p else consumeTok p ","
      let (e, p) ← prev.expr p
      prev.listLoop p (elts ++ [e]) false
  args p := do
    let p ← consumeTok p "("
    let (exprs, p) ← prev.argsLoop p [] true
    let p ← consumeTok p ")"
    .ok (exprs, p)
  argsLoop p exprs first :=
    if peekTok p ")" then .ok (exprs, p)
    else do
      let p ← if first then pure p else consumeTok p ","
      let (e, p) ← prev.expr p
      prev.argsLoop p (exprs ++ [e]) false

/-- The expression layer at a given fuel. -/
def exprFns (ops : List binaryOp) : Nat → ExprFns
  | 0 => exprFnsFail
  | fuel + 1 => exprFnsStep ops (exprFns ops fuel)

/-- `parseExpr` from parse.go. -/
def parseExpr (ops : List binaryOp) (fuel : Nat) (p : Parser) :
    Except parserErr (Expr × Parser) :=
  (exprFns ops fuel).expr p

/-- `parseUnaryExpr` from parse.go. -/
def parseUnaryExpr (ops : List binaryOp) (fuel : Nat) (p : Parser) :
    Except parserErr (Expr × Parser) :=
  (exprFns ops fuel).unary p

/-- `parseExprCont` from parse.go. -/
def parseExprCont (ops : List binaryOp) (fuel : Nat) (p : Parser) (lhs : Expr)
    (minPrecedence : Nat) : Except parserErr (Option (Expr × Parser)) :=
  (exprFns ops fuel).cont p lhs minPrecedence

/-- `parseArgs` from parse.go. -/
def parseArgs (ops : List binaryOp) (fuel : Nat) (p : Parser) :
    Except parserErr (List Expr × Parser) :=
  (exprFns ops fuel).args p

/-- The statement-parsing functions of parse.go, gathered like `ExprFns` to
express their mutual recursion (`if` bodies contain statements) as a
structurally decreasing fuel iteration. -/
structure StmtFns where
  statements : Parser → Except parserErr (List Stmt × Parser)
  statementsLoop : Parser → List Stmt → Except parserErr (List Stmt × Parser)
  statement : Parser → Except parserErr (Stmt × Parser)
  ifS : Parser → Except parserErr (Stmt × Parser)
  defineS : Parser → Except parserErr (Stmt × Parser)
  assignS : Parser → Except parserErr (Stmt × Parser)
  verifyS : Parser → Except parserErr (Stmt × Parser)
  lockS : Parser → Except parserErr (Stmt × Parser)
  unlockS : Parser → Except parserErr (Stmt × Parser)

/-- Out-of-fuel bottom of the statement layer. -/
def stmtFnsFail : StmtFns where
  statements p := .error (fuelErr p)
  statementsLoop p _ := .error (fuelErr p)
  statement p := .error (fuelErr p)
  ifS p := .error (fuelErr p)
  defineS p := .error (fuelErr p)
  assignS p := .error (fuelErr p)
  verifyS p := .error (fuelErr p)
  lockS p := .error (fuelErr p)
  unlockS p := .error (fuelErr p)

/-- One level of the statement parsers, each body transcribed from parse.go:
`statements` is `parseStatements` (with its loop split off), `statement` is
`parseStatement` (keyword dispatch; unknown keywords raise
`unknown keyword "<kw>"`), and `ifS`…`unlockS` are `parseIfStmt` …
`parseUnlockStmt`.  Expressions are parsed with the package-level `binaryOps`
table at fuel one less. -/
def stmtFnsStep (prev : StmtFns) (fuel : Nat) : StmtFns where
  statements p := prev.statementsLoop p []
  statementsLoop p acc :=
    if peekTok p "\x7d" then .ok (acc, p)
    else do
      let (s, p) ← prev.statement p
      prev.statementsLoop p (acc ++ [s])
  statement p :=
    if peekKeyword p = "if" then prev.ifS p
    else if peekKeyword p = "define" then prev.defineS p
    else if peekKeyword p = "assign" then prev.assignS p
    else if peekKeyword p = "verify" then prev.verifyS p
    else if peekKeyword p = "lock" then prev.lockS p
    else if peekKeyword p = "unlock" then prev.unlockS p
    else .error ⟨p.buf, p.pos, "unknown keyword \"" ++ peekKeyword p ++ "\""⟩
  ifS p := do
    let p ← consumeKeyword p "if"
    let (condition, p) ← parseExpr binaryOps fuel p
    let p ← consumeTok p "\x7b"
    let (trueBody, p) ← prev.statements p
    let p ← consumeTok p "\x7d"
    if peekKeyword p = "else" then do
      let p ← consumeKeyword p "else"
      let p ← consumeTok p "\x7b"
      let (falseBody, p) ← prev.statements p
      let p ← consumeTok p "\x7d"
      .ok (Stmt.ifStmt condition trueBody falseBody, p)
    else .ok (Stmt.ifStmt condition trueBody [], p)
  defineS p := do
    let p ← consumeKeyword p "define"
    let (name, p) ← consumeIdentifier p
    let p ← consumeTok p ":"
    let (variableType, p) ← consumeIdentifier p
    match types.lookup variableType with
    | none => .error ⟨p.buf, p.pos, "unknown type " ++ variableType⟩
    | some tdesc =>
      if peekTok p "=" then do
        let p ← consumeTok p "="
        let (e, p) ← parseExpr binaryOps fuel p
        .ok (Stmt.defineStmt ⟨name, tdesc⟩ (some e), p)
      else .ok (Stmt.defineStmt ⟨name, tdesc⟩ none, p)
  assignS p := do
    let p ← consumeKeyword p "assign"
    let (varName, p) ← consumeIdentifier p
    let p ← consumeTok p "="
    let (e, p) ← parseExpr binaryOps fuel p
    .ok (Stmt.assignStmt varName e, p)
  verifyS p := do
    let p ← consumeKeyword p "verify"
    let (e, p) ← parseExpr binaryOps fuel p
    .ok (Stmt.verifyStmt e, p)
  lockS p := do
    let p ← consumeKeyword p "lock"
    let (lockedAmount, p) ← parseExpr binaryOps fuel p
    let p ← consumeKeyword p "of"
    let (lockedAsset, p) ← parseExpr binaryOps fuel p
    let p ← consumeKeyword p "with"
    let (program, p) ← parseExpr binaryOps fuel p
    .ok (Stmt.lockStmt lockedAmount lockedAsset program, p)
  unlockS p := do
    let p ← consumeKeyword p "unlock"
    let (unlockedAmount, p) ← parseExpr binaryOps fuel p
    let p ← consumeKeyword p "of"
    let (unlockedAsset, p) ← parseExpr binaryOps fuel p
    .ok (Stmt.unlockStmt unlockedAmount unlockedAsset, p)

/-- The statement layer at a given fuel. -/
def stmtFns : Nat → StmtFns
  | 0 => stmtFnsFail
  | fuel + 1 => stmtFnsStep (stmtFns fuel) fuel

/-- `parseStatements` from parse.go. -/
def parseStatements (fuel : Nat) (p : Parser) : Except parserErr (List Stmt × Parser) :=
  (stmtFns fuel).statements p

/-- `parseStatement` from parse.go. -/
def parseStatement (fuel : Nat) (p : Parser) : Except parserErr (Stmt × Parser) :=
  (stmtFns fuel).statement p

/-- Extra-name loop of `parseParamsType` (`, name` repetitions). -/
def parseParamsTypeNames (fuel : Nat) (p : Parser) (names : List String) :
    Except parserErr (List String × Parser) :=
  match fuel with
  | 0 => .error (fuelErr p)
  | fuel + 1 =>
    if peekTok p "," then do
      let p ← consumeTok p ","
      let (name, p) ← consumeIdentifier p
      parseParamsTypeNames fuel p (names ++ [name])
    else .ok (names, p)

/-- `parseParamsType` from parse.go: `n1, n2, … : Type`; an unknown type name
raises `unknown type <t>`. -/
def parseParamsType (fuel : Nat) (p : Parser) : Except parserErr (List Param × Parser) :=
  match fuel with
  | 0 => .error (fuelErr p)
  | fuel + 1 => do
    let (firstName, p) ← consumeIdentifier p
    let (names, p) ← parseParamsTypeNames fuel p [firstName]
    let p ← consumeTok p ":"
    let (typ, p) ← consumeIdentifier p
    match types.lookup typ with
    | some tdesc => .ok (names.map (fun n => ⟨n, tdesc⟩), p)
    | none => .error ⟨p.buf, p.pos, "unknown type " ++ typ⟩

/-- Parameter-group loop of `parseParams`. -/
def parseParamsLoop (fuel : Nat) (p : Parser) (params : List Param) (first : Bool) :
    Except parserErr (List Param × Parser) :=
  match fuel with
  | 0 => .error (fuelErr p)
  | fuel + 1 =>
    if peekTok p ")" then .ok (params, p)
    else do
      let p ← if first then pure p else consumeTok p ","
      let (pt, p) ← parseParamsType fuel p
      parseParamsLoop fuel p (params ++ pt) false

/-- `parseParams` from parse.go. -/
def parseParams (fuel : Nat) (p : Parser) : Except parserErr (List Param × Parser) :=
  match fuel with
  | 0 => .error (fuelErr p)
  | fuel + 1 => do
    let p ← consumeTok p "("
    let (params, p) ← parseParamsLoop fuel p [] true
    let p ← consumeTok p ")"
    .ok (params, p)

/-- `parseClause` from parse.go. -/
def parseClause (fuel : Nat) (p : Parser) : Except parserErr (Clause × Parser) :=
  match fuel with
  | 0 => .error (fuelErr p)
  | fuel + 1 => do
    let p ← consumeKeyword p "clause"
    let (name, p) ← consumeIdentifier p
    let (params, p) ← parseParams fuel p
    let p ← consumeTok p "\x7b"
    let (statements, p) ← parseStatements fuel p
    let p ← consumeTok p "\x7d"
    .ok (⟨name, params, statements⟩, p)

/-- Clause loop of `parseClauses`. -/
def parseClausesLoop (fuel : Nat) (p : Parser) (acc : List Clause) :
    Except parserErr (List Clause × Parser) :=
  match fuel with
  | 0 => .error (fuelErr p)
  | fuel + 1 =>
    if peekTok p "\x7d" then .ok (acc, p)
    else do
      let (c, p) ← parseClause fuel p
      parseClausesLoop fuel p (acc ++ [c])

/-- `parseClauses` from parse.go: clauses accumulate until a `}` is seen. -/
def parseClauses (fuel : Nat) (p : Parser) : Except parserErr (List Clause × Parser) :=
  match fuel with
  | 0 => .error (fuelErr p)
  | fuel + 1 => parseClausesLoop fuel p []

/-- `parseContract` from parse.go:
`contract Name(params) locks amount of asset { clauses }`. -/
def parseContract (fuel : Nat) (p : Parser) : Except parserErr (Contract × Parser) :=
  match fuel with
  | 0 => .error (fuelErr p)
  | fuel + 1 => do
    let p ← consumeKeyword p "contract"
    let (name, p) ← consumeIdentifier p
    let (params, p) ← parseParams fuel p
    let p ← consumeKeyword p "locks"
    let (amount, p) ← consumeIdentifier p
    let p ← consumeKeyword p "of"
    let (asset, p) ← consumeIdentifier p
    let p ← consumeTok p "\x7b"
    let (clauses, p) ← parseClauses fuel p
    let p ← consumeTok p "\x7d"
    .ok (⟨name, params, clauses, ⟨amount, asset⟩⟩, p)

/-- Modelled from the spec: `parseImportDirectives` (import resolution, whose
code and file loading are not under `src/`) prepends the contracts of imported
files; on a source with no `import` directive it contributes no contracts and
leaves the position unchanged.  Sources with imports are outside the modelled
scope and reported as an error. -/
def parseImportDirectives (p : Parser) : Except parserErr (List Contract × Parser) :=
  if peekKeyword p = "import" then
    .error ⟨p.buf, p.pos, "import directives are not modelled"⟩
  else .ok ([], p)

/-- Contract loop of `parseContracts`. -/
def parseContractsLoop (fuel : Nat) (p : Parser) (acc : List Contract) :
    Except parserErr (List Contract × Parser) :=
  match fuel with
  | 0 => .error (fuelErr p)
  | fuel + 1 =>
    if peekKeyword p = "contract" then do
      let (c, p) ← parseContract fuel p
      parseContractsLoop fuel p (acc ++ [c])
    else .ok (acc, p)

/-- `parseContracts` from parse.go. -/
def parseContracts (fuel : Nat) (p : Parser) : Except parserErr (List Contract × Parser) :=
  match fuel with
  | 0 => .error (fuelErr p)
  | fuel + 1 => do
    let (imported, p) ← parseImportDirectives p
    match scanKeyword p.buf p.pos "contract" with
    | none => .error ⟨p.buf, p.pos, "expected contract"⟩
    | some _ => do
      let (parsed, p) ← parseContractsLoop fuel p []
      .ok (imported ++ parsed, p)

/-- `parse` from parse.go, the entry point: the `recover` that converts
`parserErr` panics into a returned error is the `Except` error channel here. -/
def parse (fuel : Nat) (buf : List Nat) : Except parserErr (List Contract) := do
  let (contracts, _) ← parseContracts fuel ⟨buf, 0⟩
  .ok contracts

/-- The position-to-line/column loop of `parserErr.Error`: walk the bytes
before `offset` (the list argument is `buf.take offset`, the bytes the Go
loop `for i := 0; i < p.offset; i++` reads), lines 1-based, columns
0-based. -/
def errLineColAux : List Nat → Nat → Nat → Nat × Nat
  | [], line, col => (line, col)
  | c :: rest, line, col =>
    if c = 10 then errLineColAux rest (line + 1) 0
    else errLineColAux rest line (col + 1)

/-- The `Error` method of `parserErr`: `fmt.Sprintf("line %d, col %d: "+format,
line, col, args...)` with the message already rendered. -/
def parserErr.Error (e : parserErr) : String :=
  let lc := errLineColAux (e.buf.take e.offset) 1 0
  "line " ++ toString lc.1 ++ ", col " ++ toString lc.2 ++ ": " ++ e.msg

/-- The `keywords` table from parse.go. -/
def keywords : List String :=
  ["contract", "clause", "verify", "locks", "of",
   "lock", "with", "unlock", "if", "else",
   "define", "assign", "true", "false"]

/-- A one-operator table in which `&&` is marked right-associative, used to
test whether the parser consults the flag. -/
def raOps : List binaryOp := [⟨"&&", 2, true⟩]

/-- A contract whose `verify` operand is a hex literal with a single (odd)
hex digit. -/
def oddHexProg : List Nat :=
  strBytes "contract C() locks a of b \x7b clause m() \x7b verify 0x1 \x7d \x7d"

/-- A contract whose `verify` operand is the decimal literal
`99999999999999999999`, which exceeds the signed 64-bit range. -/
def overflowProg : List Nat :=
  strBytes "contract C() locks a of b \x7b clause m() \x7b verify 99999999999999999999 \x7d \x7d"

/-- A contract using keywords (`lock`, `if`, `else`, `verify`, `unlock`) as
its contract name, parameter name, value names and clause name. -/
def keywordIdentProg : List Nat :=
  strBytes
    "contract lock(if: Integer) locks else of verify \x7b clause unlock() \x7b unlock else of verify \x7d \x7d"

/-- A contract whose braced body contains zero clauses. -/
def emptyClausesProg : List Nat := strBytes "contract X() locks a of b \x7b \x7d"

/-- A second zero-clause contract, with a parameter. -/
def emptyClausesProgB : List Nat := strBytes "contract Y(a: Amount) locks x of y \x7b \x7d"

/-- The expression `a && b && c` as a byte buffer. -/
def andChain : List Nat := strBytes "a && b && c"

/-- The expression `a + b * c` as a byte buffer. -/
def plusTimesChain : List Nat := strBytes "a + b * c"

/-! ## Lemmas -/

/-- Reading at `o + j` is reading at `j` in the suffix dropped at `o`. -/
theorem getD_drop (l : List Nat) (o j : Nat) :
    (l.drop o).getD j 0 = l.getD (o + j) 0 := by
  rw [List.getD_eq_getElem?_getD, List.getD_eq_getElem?_getD, List.getElem?_drop]

/-- Digit bytes are the ASCII codes 48–57, hence never `x` (120) or `X` (88). -/
theorem isDigitByte_ne_x {c : Nat} (h : isDigitByte c = true) :
    (c == 120 || c == 88) = false := by
  simp only [isDigitByte, Bool.and_eq_true, decide_eq_true_eq] at h
  simp only [Bool.or_eq_false_iff, beq_eq_false_iff_ne]
  omega

/-- Running the digit loop over a run of decimal digits followed by a
non-digit terminator: it stops right after the run, provided the run does not
end in a `0` that is immediately followed by `x`/`X`. -/
theorem scanDigitsHex_run :
    ∀ (digits rest : List Nat) (i : Nat),
      (∀ c ∈ digits, isDigitByte c = true) →
      (rest = [] ∨ isDigitByte (rest.headD 0) = false) →
      ¬(digits.getLast? = some 48 ∧ (rest.headD 0 = 120 ∨ rest.headD 0 = 88)) →
      scanDigitsHex (digits ++ rest) i = some (i + digits.length)
  | [], rest, i, _, hterm, _ => by
    match rest, hterm with
    | [], _ => rfl
    | r :: rs, hterm =>
      have hr : isDigitByte r = false := by
        rcases hterm with h | h
        · exact absurd h (by simp)
        · simpa using h
      match rs with
      | [] => simp [scanDigitsHex, hr]
      | r2 :: rs' => simp [scanDigitsHex, hr]
  | [d], rest, i, hdig, hterm, hnox => by
    have hd : isDigitByte d = true := hdig d (by simp)
    match rest, hterm with
    | [], _ => simp [scanDigitsHex, hd]
    | r :: rs, hterm =>
      have hr : isDigitByte r = false := by
        rcases hterm with h | h
        · exact absurd h (by simp)
        · simpa using h
      have hcond : (d == 48 && (r == 120 || r == 88)) = false := by
        by_cases hd48 : d = 48
        · subst hd48
          have : ¬(r = 120 ∨ r = 88) := fun hor => hnox ⟨by simp, by simpa using hor⟩
          simp only [beq_self_eq_true, Bool.true_and, Bool.or_eq_false_iff,
            beq_eq_false_iff_ne]
          exact ⟨fun h => this (Or.inl h), fun h => this (Or.inr h)⟩
        · simp [beq_eq_false_iff_ne, hd48]
      have step : scanDigitsHex ([d] ++ r :: rs) i = scanDigitsHex (r :: rs) (i + 1) := by
        simp [scanDigitsHex, hd, hcond]
      rw [step]
      have tail := scanDigitsHex_run [] (r :: rs) (i + 1) (by simp)
        (Or.inr (by simpa using hr)) (by simp)
      simpa using tail
  | d1 :: d2 :: ds, rest, i, hdig, hterm, hnox => by
    have hd1 : isDigitByte d1 = true := hdig d1 (by simp)
    have hd2 : isDigitByte d2 = true := hdig d2 (by simp)
    have hcond : (d1 == 48 && (d2 == 120 || d2 == 88)) = false := by
      rw [isDigitByte_ne_x hd2, Bool.and_false]
    have step : scanDigitsHex ((d1 :: d2 :: ds) ++ rest) i
        = scanDigitsHex ((d2 :: ds) ++ rest) (i + 1) := by
      simp [scanDigitsHex, hd1, hcond]
    rw [step]
    have tail := scanDigitsHex_run (d2 :: ds) rest (i + 1)
      (fun c hc => hdig c (by simp [hc]))
      hterm (by rwa [List.getLast?_cons_cons] at hnox)
    rw [tail]
    simp
    omega

/-- Running the digit loop over a digit run whose final digit is `0`
immediately followed by `x`/`X`: the scan is aborted. -/
theorem scanDigitsHex_declines :
    ∀ (digits rest : List Nat) (i : Nat),
      (∀ c ∈ digits, isDigitByte c = true) →
      digits.getLast? = some 48 →
      (rest.headD 0 = 120 ∨ rest.headD 0 = 88) →
      rest ≠ [] →
      scanDigitsHex (digits ++ rest) i = none
  | [], _, _, _, hlast, _, _ => by simp at hlast
  | [d], rest, i, hdig, hlast, hx, hrest => by
    have hd : d = 48 := by simpa using hlast
    match rest, hrest with
    | r :: rs, _ =>
      have hr : (r == 120 || r == 88) = true := by
        rcases hx with h | h <;> simp_all
      subst hd
      simp [scanDigitsHex, hr, isDigitByte]
  | d1 :: d2 :: ds, rest, i, hdig, hlast, hx, hrest => by
    have hd1 : isDigitByte d1 = true := hdig d1 (by simp)
    have hd2 : isDigitByte d2 = true := hdig d2 (by simp)
    have hcond : (d1 == 48 && (d2 == 120 || d2 == 88)) = false := by
      rw [isDigitByte_ne_x hd2, Bool.and_false]
    have step : scanDigitsHex ((d1 :: d2 :: ds) ++ rest) i
        = scanDigitsHex ((d2 :: ds) ++ rest) (i + 1) := by
      simp [scanDigitsHex, hd1, hcond]
    rw [step]
    exact scanDigitsHex_declines (d2 :: ds) rest (i + 1)
      (fun c hc => hdig c (by simp [hc]))
      (by rwa [List.getLast?_cons_cons] at hlast) hx hrest

/-- Evaluation of `scanIntLiteral` at a position holding an optional sign and
a maximal digit run `digits` (followed by `rest`): the scan succeeds with the
signed decimal value exactly when that value fits in 64-bit signed range. -/
theorem scanIntLiteral_eval (buf : List Nat) (off o : Nat) (neg : Bool) (d : Nat)
    (digits rest : List Nat)
    (ho : skipWsAndComments buf off = o)
    (hneg : (decide (o < buf.length) && (buf.getD o 0 == 45)) = neg)
    (hd : d = if neg then o + 1 else o)
    (hsplit : buf.drop d = digits ++ rest)
    (hne : digits ≠ [])
    (hdig : ∀ c ∈ digits, isDigitByte c = true)
    (hterm : rest = [] ∨ isDigitByte (rest.headD 0) = false)
    (hnox : ¬(digits.getLast? = some 48 ∧ (rest.headD 0 = 120 ∨ rest.headD 0 = 88))) :
    scanIntLiteral buf off =
      if -(2 ^ 63) ≤ (if neg then -1 else 1) * (digitsVal digits : Int) ∧
          (if neg then -1 else 1) * (digitsVal digits : Int) ≤ 2 ^ 63 - 1 then
        some ((if neg then -1 else 1) * (digitsVal digits : Int), d + digits.length)
      else none := by
  have hrun : scanDigitsHex (buf.drop d) d = some (d + digits.length) := by
    rw [hsplit]; exact scanDigitsHex_run digits rest d hdig hterm hnox
  have htake : (buf.drop d).take (d + digits.length - d) = digits := by
    rw [hsplit]
    have hlen : d + digits.length - d = digits.length := by omega
    rw [hlen, List.take_left]
  have hpos : 0 < digits.length := List.length_pos.mpr hne
  unfold scanIntLiteral
  rw [ho]
  cases neg with
  | false =>
    simp only [Bool.false_eq_true, if_false] at hd
    subst hd
    simp only [hneg, Bool.false_eq_true, if_false, hrun]
    rw [if_pos (by omega)]
    rw [htake]
    rw [if_neg (lt_irrefl _)]
  | true =>
    simp only [if_true] at hd
    subst hd
    simp only [hneg, if_true, hrun]
    rw [if_pos (by omega)]
    rw [htake]
    rw [if_pos (Nat.lt_succ_self _)]

/-- Evaluation of `scanIntLiteral` at a position where the digit run ends in
a `0` immediately followed by `x`/`X`: the scanner declines. -/
theorem scanIntLiteral_declinesOnHex (buf : List Nat) (off o : Nat) (neg : Bool)
    (d : Nat) (digits rest : List Nat)
    (ho : skipWsAndComments buf off = o)
    (hneg : (decide (o < buf.length) && (buf.getD o 0 == 45)) = neg)
    (hd : d = if neg then o + 1 else o)
    (hsplit : buf.drop d = digits ++ rest)
    (hdig : ∀ c ∈ digits, isDigitByte c = true)
    (hlast : digits.getLast? = some 48)
    (hx : rest.headD 0 = 120 ∨ rest.headD 0 = 88)
    (hrest : rest ≠ []) :
    scanIntLiteral buf off = none := by
  have hnone : scanDigitsHex (buf.drop d) d = none := by
    rw [hsplit]; exact scanDigitsHex_declines digits rest d hdig hlast hx hrest
  unfold scanIntLiteral
  rw [ho]
  cases neg with
  | false =>
    simp only [Bool.false_eq_true, if_false] at hd
    subst hd
    simp only [hneg, Bool.false_eq_true, if_false, hnone]
  | true =>
    simp only [if_true] at hd
    subst hd
    simp only [hneg, if_true, hnone]

/-- The hex-pair loop over an odd run of hex digits followed by a non-hex
terminator (or end of buffer) always reports the odd-digit error. -/
theorem scanHexPairs_oddRun (buf : List Nat) (o : Nat) :
    ∀ (digits rest : List Nat) (i : Nat),
      (∀ c ∈ digits, isHexDigit c = true) →
      digits.length % 2 = 1 →
      (rest = [] ∨ isHexDigit (rest.headD 0) = false) →
      scanHexPairs buf o (digits ++ rest) i =
        .error ⟨buf, o, "odd number of digits in hex literal"⟩
  | [], _, _, _, hodd, _ => by simp at hodd
  | [d], rest, i, hdig, _, hterm => by
    match rest, hterm with
    | [], _ => rfl
    | r :: rs, hterm =>
      have hd : isHexDigit d = true := hdig d (by simp)
      have hr : isHexDigit r = false := by
        rcases hterm with h | h
        · exact absurd h (by simp)
        · simpa using h
      simp [scanHexPairs, hd, hr]
  | d1 :: d2 :: ds, rest, i, hdig, hodd, hterm => by
    have h1 : isHexDigit d1 = true := hdig d1 (by simp)
    have h2 : isHexDigit d2 = true := hdig d2 (by simp)
    have step : scanHexPairs buf o ((d1 :: d2 :: ds) ++ rest) i
        = scanHexPairs buf o (ds ++ rest) (i + 2) := by
      simp [scanHexPairs, h1, h2]
    rw [step]
    exact scanHexPairs_oddRun buf o ds rest (i + 2)
      (fun c hc => hdig c (by simp [hc]))
      (by simp only [List.length_cons] at hodd; omega) hterm

/-- Claim C2 (amended): for a hex bytes literal `0x`/`0X` followed by an odd
run of AT LEAST THREE hex digits (terminated by a non-hex byte or end of
input), scanning raises the fatal lexical error
`odd number of digits in hex literal` positioned at the literal's start (the
`0` after whitespace/comment skipping).  A literal with a single hex digit is
instead silently declined by the scanner and parsing fails later with a
generic syntax error — see the counterexample theorem. -/
theorem scanBytesLiteral_oddRun_eval (buf : List Nat) (off o x : Nat)
    (digits rest : List Nat)
    (ho : skipWsAndComments buf off = o)
    (hsplit : buf.drop o = 48 :: x :: (digits ++ rest))
    (hx : x = 120 ∨ x = 88)
    (hdig : ∀ c ∈ digits, isHexDigit c = true)
    (hodd : digits.length % 2 = 1)
    (hlen3 : 3 ≤ digits.length)
    (hterm : rest = [] ∨ isHexDigit (rest.headD 0) = false) :
    scanBytesLiteral buf off = .error ⟨buf, o, "odd number of digits in hex literal"⟩ := by
  have holt : o < buf.length := by
    by_contra h
    rw [List.drop_eq_nil_of_le (by omega)] at hsplit
    exact absurd hsplit (by simp)
  have hlen : buf.length - o = 2 + (digits.length + rest.length) := by
    have := List.length_drop o buf
    rw [hsplit] at this
    simp at this
    omega
  have hg : ∀ j, buf.getD (o + j) 0 = (48 :: x :: (digits ++ rest)).getD j 0 := by
    intro j
    rw [← getD_drop, hsplit]
  have hg0 : buf.getD o 0 = 48 := by have := hg 0; simpa using this
  have hg1 : buf.getD (o + 1) 0 = x := by simpa using hg 1
  have hg2 : buf.getD (o + 2) 0 = digits.getD 0 0 := by
    have h := hg 2
    rw [show (48 :: x :: (digits ++ rest)).getD 2 0 = (digits ++ rest).getD 0 0 from rfl] at h
    rw [List.getD_append digits rest 0 0 (by omega)] at h
    exact h
  have hg3 : buf.getD (o + 3) 0 = digits.getD 1 0 := by
    have h := hg 3
    rw [show (48 :: x :: (digits ++ rest)).getD 3 0 = (digits ++ rest).getD 1 0 from rfl] at h
    rw [List.getD_append digits rest 0 1 (by omega)] at h
    exact h
  have hdig0 : isHexDigit (digits.getD 0 0) = true := by
    rw [List.getD_eq_getElem digits 0 (show 0 < digits.length by omega)]
    exact hdig _ (List.getElem_mem _)
  have hdig1 : isHexDigit (digits.getD 1 0) = true := by
    rw [List.getD_eq_getElem digits 0 (show 1 < digits.length by omega)]
    exact hdig _ (List.getElem_mem _)
  have hdrop4 : buf.drop (o + 4) = digits.drop 2 ++ rest := by
    have h1 : buf.drop (o + 4) = (buf.drop o).drop 4 := by
      rw [List.drop_drop]
    rw [h1, hsplit]
    simp only [List.drop_succ_cons, List.drop_zero]
    exact List.drop_append_of_le_length (by omega)
  have hpairs : scanHexPairs buf o (buf.drop (o + 4)) (o + 4)
      = .error ⟨buf, o, "odd number of digits in hex literal"⟩ := by
    rw [hdrop4]
    exact scanHexPairs_oddRun buf o (digits.drop 2) rest (o + 4)
      (fun c hc => hdig c (List.mem_of_mem_drop hc))
      (by rw [List.length_drop]; omega) hterm
  unfold scanBytesLiteral
  rw [ho]
  rw [if_neg (by omega)]
  rw [hg0, hg1, hg2, hg3]
  have hcond1 : (!(48 == 48) || (!(x == 120) && !(x == 88))) = false := by
    rcases hx with h | h <;> subst h <;> decide
  rw [hcond1]
  simp only [Bool.false_eq_true, if_false]
  have hcond2 : (!isHexDigit (digits.getD 0 0) || !isHexDigit (digits.getD 1 0)) = false := by
    rw [hdig0, hdig1]
    decide
  rw [hcond2]
  simp only [Bool.false_eq_true, if_false]
  rw [hpairs]

/-! ## Claim theorems -/

/-- Witness for C2 (amended): on the buffer `0xabc ` (three hex digits, then
a space), the scanner raises the odd-digit error at offset 0, the start of
the literal. -/
theorem scanBytesLiteral_oddRun_eval_witness :
    scanBytesLiteral (strBytes "0xabc ") 0 =
      .error ⟨strBytes "0xabc ", 0, "odd number of digits in hex literal"⟩ :=
  scanBytesLiteral_oddRun_eval (strBytes "0xabc ") 0 0 120 [97, 98, 99] [32]
    (by decide) (by decide) (Or.inl rfl) (by decide) (by decide) (by decide)
    (Or.inr (by decide))

/-- Claim C2 counterexample: `oddHexProg` contains the hex literal `0x1`
with an odd number (one) of hex digits, yet parsing does not abort with the
lexical odd-digit error at the literal's start column: it fails with
`expected identifier` at offset 47 — the whitespace before the literal, whose
`0` sits at offset 48. -/
theorem oddHexProg_counterexample :
    parse 500 oddHexProg = .error ⟨oddHexProg, 47, "expected identifier"⟩ ∧
    "expected identifier" ≠ "odd number of digits in hex literal" ∧
    oddHexProg.getD 47 0 = 32 ∧ oddHexProg.getD 48 0 = 48 :=
  ⟨rfl, by decide, rfl, rfl⟩

/-- Claim C4: the even-digit hex literal success claim fails at buffer
boundaries.  `0x1234z` — four hex digits followed by a non-hex terminator
that is the buffer's last byte — raises the (false) odd-digit error instead
of succeeding, and `0x12` at end of input is declined rather than decoded;
away from the boundary (`0x12 ]`) the literal decodes to `[0x12]` with the
position advanced past the last hex digit, as the claim describes. -/
theorem scanBytesLiteral_boundary_bug :
    scanBytesLiteral (strBytes "0x1234z") 0 =
      .error ⟨strBytes "0x1234z", 0, "odd number of digits in hex literal"⟩ ∧
    scanBytesLiteral (strBytes "0x12") 0 = .ok none ∧
    scanBytesLiteral (strBytes "0x12 ]") 0 = .ok (some ([18], 4)) :=
  ⟨rfl, rfl, rfl⟩

/-- Claim C3: a decimal integer literal whose value fits in a 64-bit signed
integer is parsed by `scanIntLiteral` to that value; a literal whose value
does not fit makes the scanner decline, and the compiler then reports a parse
error — witnessed on a contract whose `verify` operand is the overflowing
literal `99999999999999999999` (the parse fails with an error at the
position after `verify`). -/
theorem scanIntLiteral_int64_range :
    (∀ (buf : List Nat) (off o : Nat) (neg : Bool) (d : Nat)
        (digits rest : List Nat) (v : Int),
      skipWsAndComments buf off = o →
      (decide (o < buf.length) && (buf.getD o 0 == 45)) = neg →
      d = (if neg then o + 1 else o) →
      buf.drop d = digits ++ rest →
      digits ≠ [] →
      (∀ c ∈ digits, isDigitByte c = true) →
      (rest = [] ∨ isDigitByte (rest.headD 0) = false) →
      ¬(digits.getLast? = some 48 ∧ (rest.headD 0 = 120 ∨ rest.headD 0 = 88)) →
      v = (if neg then -1 else 1) * (digitsVal digits : Int) →
      -(2 ^ 63) ≤ v → v ≤ 2 ^ 63 - 1 →
      scanIntLiteral buf off = some (v, d + digits.length)) ∧
    (∀ (buf : List Nat) (off o : Nat) (neg : Bool) (d : Nat)
        (digits rest : List Nat) (v : Int),
      skipWsAndComments buf off = o →
      (decide (o < buf.length) && (buf.getD o 0 == 45)) = neg →
      d = (if neg then o + 1 else o) →
      buf.drop d = digits ++ rest →
      digits ≠ [] →
      (∀ c ∈ digits, isDigitByte c = true) →
      (rest = [] ∨ isDigitByte (rest.headD 0) = false) →
      ¬(digits.getLast? = some 48 ∧ (rest.headD 0 = 120 ∨ rest.headD 0 = 88)) →
      v = (if neg then -1 else 1) * (digitsVal digits : Int) →
      (v < -(2 ^ 63) ∨ 2 ^ 63 - 1 < v) →
      scanIntLiteral buf off = none) ∧
    parse 500 overflowProg = .error ⟨overflowProg, 47, "expected identifier"⟩ := by
  refine ⟨?_, ?_, rfl⟩
  · intro buf off o neg d digits rest v ho hneg hd hsplit hne hdig hterm hnox hv hlo hhi
    rw [scanIntLiteral_eval buf off o neg d digits rest ho hneg hd hsplit hne hdig
      hterm hnox]
    rw [← hv, if_pos ⟨hlo, hhi⟩]
  · intro buf off o neg d digits rest v ho hneg hd hsplit hne hdig hterm hnox hv hover
    rw [scanIntLiteral_eval buf off o neg d digits rest ho hneg hd hsplit hne hdig
      hterm hnox]
    rw [← hv, if_neg (by rcases hover with h | h <;> omega)]

/-- Witness for C3: the extreme in-range literal parses to its value and the
first out-of-range literal is declined. -/
theorem scanIntLiteral_int64_range_witness :
    scanIntLiteral (strBytes "9223372036854775807") 0 = some (9223372036854775807, 19) ∧
    scanIntLiteral (strBytes "9223372036854775808") 0 = none := by
  constructor
  · have h := scanIntLiteral_int64_range.1 (strBytes "9223372036854775807") 0 0 false 0
      (strBytes "9223372036854775807") [] 9223372036854775807
      (by decide) (by decide) (by decide) (by decide) (by decide) (by decide)
      (Or.inl rfl) (by decide) (by decide) (by decide) (by decide)
    simpa using h
  · exact scanIntLiteral_int64_range.2.1 (strBytes "9223372036854775808") 0 0 false 0
      (strBytes "9223372036854775808") [] 9223372036854775808
      (by decide) (by decide) (by decide) (by decide) (by decide) (by decide)
      (Or.inl rfl) (by decide) (by decide) (by decide)

/-- Claim C5 counterexample: in `10x1` the apparent integer literal `10` does
not begin with `0` (its first byte is `49`, the digit `1`), yet
`scanIntLiteral` declines — the decline condition is not restricted to a
leading `0x`/`0X`. -/
theorem scanIntLiteral_decline_counterexample :
    scanIntLiteral (strBytes "10x1") 0 = none ∧ (strBytes "10x1").getD 0 0 = 49 :=
  ⟨rfl, rfl⟩

/-- Claim C5 (amended): integer-literal scanning recognizes an optional
leading `-` followed by decimal digits and returns the 64-bit signed value
when it fits; it declines whenever the digit run ends in a digit `0`
immediately followed by `x`/`X` (not only when the apparent literal's first
digit is such a `0`), and also when the value does not fit in int64. -/
theorem scanIntLiteral_token_shape :
    (∀ (buf : List Nat) (off o : Nat) (neg : Bool) (d : Nat)
        (digits rest : List Nat),
      skipWsAndComments buf off = o →
      (decide (o < buf.length) && (buf.getD o 0 == 45)) = neg →
      d = (if neg then o + 1 else o) →
      buf.drop d = digits ++ rest →
      digits ≠ [] →
      (∀ c ∈ digits, isDigitByte c = true) →
      (rest = [] ∨ isDigitByte (rest.headD 0) = false) →
      ¬(digits.getLast? = some 48 ∧ (rest.headD 0 = 120 ∨ rest.headD 0 = 88)) →
      -(2 ^ 63) ≤ (if neg then -1 else 1) * (digitsVal digits : Int) →
      (if neg then -1 else 1) * (digitsVal digits : Int) ≤ 2 ^ 63 - 1 →
      scanIntLiteral buf off =
        some ((if neg then -1 else 1) * (digitsVal digits : Int), d + digits.length)) ∧
    (∀ (buf : List Nat) (off o : Nat) (neg : Bool) (d : Nat)
        (digits rest : List Nat),
      skipWsAndComments buf off = o →
      (decide (o < buf.length) && (buf.getD o 0 == 45)) = neg →
      d = (if neg then o + 1 else o) →
      buf.drop d = digits ++ rest →
      (∀ c ∈ digits, isDigitByte c = true) →
      digits.getLast? = some 48 →
      (rest.headD 0 = 120 ∨ rest.headD 0 = 88) →
      rest ≠ [] →
      scanIntLiteral buf off = none) ∧
    (∀ (buf : List Nat) (off o : Nat) (neg : Bool) (d : Nat)
        (digits rest : List Nat),
      skipWsAndComments buf off = o →
      (decide (o < buf.length) && (buf.getD o 0 == 45)) = neg →
      d = (if neg then o + 1 else o) →
      buf.drop d = digits ++ rest →
      digits ≠ [] →
      (∀ c ∈ digits, isDigitByte c = true) →
      (rest = [] ∨ isDigitByte (rest.headD 0) = false) →
      ¬(digits.getLast? = some 48 ∧ (rest.headD 0 = 120 ∨ rest.headD 0 = 88)) →
      ((if neg then -1 else 1) * (digitsVal digits : Int) < -(2 ^ 63) ∨
        2 ^ 63 - 1 < (if neg then -1 else 1) * (digitsVal digits : Int)) →
      scanIntLiteral buf off = none) := by
  refine ⟨?_, ?_, ?_⟩
  · intro buf off o neg d digits rest ho hneg hd hsplit hne hdig hterm hnox hlo hhi
    rw [scanIntLiteral_eval buf off o neg d digits rest ho hneg hd hsplit hne hdig
      hterm hnox]
    rw [if_pos ⟨hlo, hhi⟩]
  · intro buf off o neg d digits rest ho hneg hd hsplit hdig hlast hx hrest
    exact scanIntLiteral_declinesOnHex buf off o neg d digits rest ho hneg hd hsplit
      hdig hlast hx hrest
  · intro buf off o neg d digits rest ho hneg hd hsplit hne hdig hterm hnox hover
    rw [scanIntLiteral_eval buf off o neg d digits rest ho hneg hd hsplit hne hdig
      hterm hnox]
    rw [if_neg (by rcases hover with h | h <;> omega)]

/-- Witness for C5 (amended): `-3` scans as the literal `-3`, and `-0x12`
(digit run `0` ending right before `x`) is declined. -/
theorem scanIntLiteral_token_shape_witness :
    scanIntLiteral (strBytes "-3") 0 = some (-3, 2) ∧
    scanIntLiteral (strBytes "-0x12") 0 = none := by
  constructor
  · have h := scanIntLiteral_token_shape.1 (strBytes "-3") 0 0 true 1 [51] []
      (by decide) (by decide) (by decide) (by decide) (by decide) (by decide)
      (Or.inl rfl) (by decide) (by decide) (by decide)
    simpa using h
  · exact scanIntLiteral_token_shape.2.1 (strBytes "-0x12") 0 0 true 1 [48]
      [120, 49, 50] (by decide) (by decide) (by decide) (by decide) (by decide)
      (by decide) (Or.inl rfl) (by decide)

/-- Claim C6: the unary-operator scanner returns no match at any position
where an integer literal begins — so `-3` is lexed as the single signed
literal `-3`, not unary minus applied to `3` — and at positions where no
integer literal begins, `-` and `!` are recognized as unary operators. -/
theorem scanUnaryOp_maxMunch :
    (∀ (buf : List Nat) (off : Nat),
      (scanIntLiteral buf off).isSome = true → scanUnaryOp buf off = none) ∧
    (∀ (buf : List Nat) (off p : Nat),
      scanIntLiteral buf off = none → scanTok buf off "-" = some p →
      scanUnaryOp buf off = some ("-", p)) ∧
    (∀ (buf : List Nat) (off p : Nat),
      scanIntLiteral buf off = none → scanTok buf off "-" = none →
      scanTok buf off "!" = some p → scanUnaryOp buf off = some ("!", p)) ∧
    (scanLiteralExpr (strBytes "-3") 0 = .ok (some (.intLit (-3), 2)) ∧
      scanUnaryOp (strBytes "-3") 0 = none) := by
  refine ⟨?_, ?_, ?_, rfl, rfl⟩
  · intro buf off h
    unfold scanUnaryOp
    rw [if_pos h]
  · intro buf off p hnone htok
    unfold scanUnaryOp
    rw [hnone]
    simp [scanUnaryOpAux, unaryOps, htok]
  · intro buf off p hnone htokm htokb
    unfold scanUnaryOp
    rw [hnone]
    simp [scanUnaryOpAux, unaryOps, htokm, htokb]

/-- Witness for C6: at `-x` (no integer literal) the scanner yields unary
`-`; at `!a` it yields unary `!`. -/
theorem scanUnaryOp_maxMunch_witness :
    scanUnaryOp (strBytes "-x") 0 = some ("-", 1) ∧
    scanUnaryOp (strBytes "!a") 0 = some ("!", 1) :=
  ⟨scanUnaryOp_maxMunch.2.1 (strBytes "-x") 0 1 (by decide) (by decide),
   scanUnaryOp_maxMunch.2.2.1 (strBytes "!a") 0 1 (by decide) (by decide) (by decide)⟩

/-- Claim C7 counterexample: with a table whose `&&` is marked
right-associative (`raOps`), `a && b && c` still parses grouped to the left —
`parseExprCont` never consults the right-associativity flag, so the parse is
not `a && (b && c)` as the claim requires for a right-associative operator. -/
theorem rightAssoc_flag_counterexample :
    parseExpr raOps 100 ⟨andChain, 0⟩ =
      .ok (.binaryExpr ⟨"&&", 2, true⟩
        (.binaryExpr ⟨"&&", 2, true⟩ (.varRef "a") (.varRef "b")) (.varRef "c"),
        ⟨andChain, 11⟩) ∧
    Expr.binaryExpr ⟨"&&", 2, true⟩
        (.binaryExpr ⟨"&&", 2, true⟩ (.varRef "a") (.varRef "b")) (.varRef "c") ≠
      Expr.binaryExpr ⟨"&&", 2, true⟩ (.varRef "a")
        (.binaryExpr ⟨"&&", 2, true⟩ (.varRef "b") (.varRef "c")) :=
  ⟨rfl, by simp⟩

/-- Claim C7 (amended): expression parsing is precedence climbing in which a
chain of equal-precedence operators always groups to the left — `a && b && c`
parses as `(a && b) && c` under the real operator table — and a
higher-precedence operator binds tighter (`a + b * c` is `a + (b * c)`); the
per-operator right-associativity flag is not consulted, so the grouping is
identical under `raOps`, whose `&&` is marked right-associative. -/
theorem exprParsing_leftAssoc :
    parseExpr binaryOps 100 ⟨andChain, 0⟩ =
      .ok (.binaryExpr ⟨"&&", 2, false⟩
        (.binaryExpr ⟨"&&", 2, false⟩ (.varRef "a") (.varRef "b")) (.varRef "c"),
        ⟨andChain, 11⟩) ∧
    parseExpr raOps 100 ⟨andChain, 0⟩ =
      .ok (.binaryExpr ⟨"&&", 2, true⟩
        (.binaryExpr ⟨"&&", 2, true⟩ (.varRef "a") (.varRef "b")) (.varRef "c"),
        ⟨andChain, 11⟩) ∧
    parseExpr binaryOps 100 ⟨plusTimesChain, 0⟩ =
      .ok (.binaryExpr ⟨"+", 5, false⟩ (.varRef "a")
        (.binaryExpr ⟨"*", 6, false⟩ (.varRef "b") (.varRef "c")),
        ⟨plusTimesChain, 9⟩) :=
  ⟨rfl, rfl, rfl⟩

/-- Claim C8 counterexample: the contract `contract X() locks a of b { }`,
whose braced body contains zero clauses, parses successfully to a contract
with an empty clause list — no syntax error is raised. -/
theorem emptyClauses_accepted_counterexample :
    parse 500 emptyClausesProg = .ok [⟨"X", [], [], ⟨"a", "b"⟩⟩] := rfl

/-- Claim C8 (amended): the parser accepts zero or more clauses in a contract
body: `parseClauses` returns the empty clause list as soon as `}` is the next
token, and a zero-clause contract parses successfully (the grammar's
`clause+` is not enforced). -/
theorem parseClauses_acceptsZero :
    (∀ (fuel : Nat) (p : Parser), peekTok p "\x7d" = true →
      parseClauses (fuel + 2) p = .ok ([], p)) ∧
    parse 500 emptyClausesProgB =
      .ok [⟨"Y", [⟨"a", .amount⟩], [], ⟨"x", "y"⟩⟩] := by
  constructor
  · intro fuel p h
    show parseClausesLoop (fuel + 1) p [] = .ok ([], p)
    unfold parseClausesLoop
    rw [h]
    simp
  · rfl

/-- Witness for C8 (amended): at a buffer whose next token is `}`,
`parseClauses` yields the empty clause list. -/
theorem parseClauses_acceptsZero_witness :
    peekTok ⟨strBytes "\x7d", 0⟩ "\x7d" = true ∧
    parseClauses 2 ⟨strBytes "\x7d", 0⟩ = .ok ([], ⟨strBytes "\x7d", 0⟩) :=
  ⟨by decide, parseClauses_acceptsZero.1 0 ⟨strBytes "\x7d", 0⟩ (by decide)⟩

/-- `takeWhile` over an append whose left part contains a byte refuting the
predicate never reaches the right part. -/
theorem takeWhile_append_of_mem_not (l : List Nat) (suffix : List Nat)
    (hmem : ∃ b ∈ l, (b != 10) = false) :
    (l ++ suffix).takeWhile (fun b => b != 10) = l.takeWhile (fun b => b != 10) := by
  rw [List.takeWhile_append]
  rw [if_neg]
  intro hlen
  have heq : l.takeWhile (fun b => b != 10) = l :=
    (List.takeWhile_prefix _).eq_of_length hlen
  obtain ⟨b, hb, hbp⟩ := hmem
  have := List.takeWhile_eq_self_iff.mp heq b hb
  rw [this] at hbp
  exact absurd hbp (by simp)

/-- `takeWhile` over an append whose left part wholly satisfies the predicate
continues into the right part. -/
theorem takeWhile_append_of_all (l : List Nat) (suffix : List Nat)
    (hall : ∀ b ∈ l, (b != 10) = true) :
    (l ++ suffix).takeWhile (fun b => b != 10) =
      l ++ suffix.takeWhile (fun b => b != 10) := by
  rw [List.takeWhile_append]
  rw [if_pos]
  rw [List.takeWhile_eq_self_iff.mpr hall]

/-- The line/column loop of `parserErr.Error`: the line grows by the number
of newline bytes seen, and the column is the length of the maximal
newline-free tail (or the incoming column plus the list length when no
newline occurs). -/
theorem errLineColAux_spec :
    ∀ (l : List Nat) (line col : Nat),
      errLineColAux l line col =
        (line + l.count 10,
          if 10 ∈ l then ((l.reverse.takeWhile (fun c => c != 10)).length)
          else col + l.length)
  | [], line, col => by simp [errLineColAux]
  | c :: rest, line, col => by
    by_cases hc : c = 10
    · subst hc
      rw [errLineColAux, if_pos rfl]
      rw [errLineColAux_spec rest (line + 1) 0]
      rw [List.count_cons]
      simp only [List.mem_cons, true_or, if_true, beq_self_eq_true, if_pos]
      rw [List.reverse_cons]
      by_cases hmem : 10 ∈ rest
      · rw [if_pos hmem]
        rw [takeWhile_append_of_mem_not rest.reverse [10] ⟨10, by simpa using hmem, by simp⟩]
        simp only [Prod.mk.injEq]
        exact ⟨by omega, trivial⟩
      · rw [if_neg hmem]
        rw [takeWhile_append_of_all rest.reverse [10]
          (fun b hb => by
            have : b ∈ rest := by simpa using hb
            have hbne : b ≠ 10 := fun h => hmem (h ▸ this)
            simpa using hbne)]
        simp only [Prod.mk.injEq]
        exact ⟨by omega, by simp⟩
    · rw [errLineColAux, if_neg hc]
      rw [errLineColAux_spec rest line (col + 1)]
      rw [List.count_cons]
      have hcnt : (if (c == 10) = true then 1 else 0) = 0 := by
        simp [hc]
      rw [hcnt]
      have hmemc : (10 ∈ c :: rest) ↔ (10 ∈ rest) := by
        simp only [List.mem_cons]
        constructor
        · rintro (h | h)
          · exact absurd h.symm hc
          · exact h
        · exact Or.inr
      by_cases hmem : 10 ∈ rest
      · rw [if_pos hmem, if_pos (hmemc.mpr hmem)]
        rw [List.reverse_cons]
        rw [takeWhile_append_of_mem_not rest.reverse [c] ⟨10, by simpa using hmem, by simp⟩]
        simp only [Prod.mk.injEq]
        exact ⟨by omega, trivial⟩
      · rw [if_neg hmem, if_neg (fun h => hmem (hmemc.mp h))]
        simp only [List.length_cons, Prod.mk.injEq]
        exact ⟨by omega, by omega⟩

/-- Claim C9: `parserErr.Error` renders exactly `line L, col C: <message>`
where L is 1 plus the number of newline bytes before the error offset and C
is the number of bytes after the last of those newlines (0-based); parse
errors are returned to the caller as values — on `xyz` the parse returns the
`expected contract` error at offset 0, rendered `line 1, col 0: …`. -/
theorem parserErr_Error_format :
    (∀ (buf : List Nat) (off : Nat) (msg : String), off ≤ buf.length →
      parserErr.Error ⟨buf, off, msg⟩ =
        "line " ++ toString (1 + (buf.take off).count 10) ++ ", col " ++
          toString (((buf.take off).reverse.takeWhile (fun c => c != 10)).length) ++
          ": " ++ msg) ∧
    parse 500 (strBytes "xyz") = .error ⟨strBytes "xyz", 0, "expected contract"⟩ ∧
    parserErr.Error ⟨strBytes "xyz", 0, "expected contract"⟩ =
      "line 1, col 0: expected contract" := by
  refine ⟨?_, rfl, rfl⟩
  intro buf off msg _hoff
  unfold parserErr.Error
  rw [errLineColAux_spec]
  by_cases hmem : 10 ∈ buf.take off
  · rw [if_pos hmem]
  · rw [if_neg hmem]
    have hall : (buf.take off).reverse.takeWhile (fun c => c != 10)
        = (buf.take off).reverse := by
      apply List.takeWhile_eq_self_iff.mpr
      intro b hb
      have : b ∈ buf.take off := by simpa using hb
      have hbne : b ≠ 10 := fun h => hmem (h ▸ this)
      simpa using hbne
    rw [hall, List.length_reverse]
    simp

/-- Witness for C9: an error at offset 4 of `ab\ncd` (one newline before it,
one byte after that newline) renders as `line 2, col 1: m`. -/
theorem parserErr_Error_format_witness :
    parserErr.Error ⟨strBytes "ab\ncd", 4, "m"⟩ = "line 2, col 1: m" := by
  have h := parserErr_Error_format.1 (strBytes "ab\ncd") 4 "m" (by decide)
  exact h.trans (by decide)

/-- Claim C10: identifier consumption does not reserve keywords — every
string in the keyword table lexes as an ordinary identifier, and a contract
using keywords as its contract name (`lock`), parameter name (`if`),
locked-value names (`else`, `verify`) and clause name (`unlock`) parses
successfully, keywords being distinguished only by string equality where a
specific keyword is required. -/
theorem keywords_not_reserved :
    (∀ kw ∈ keywords,
      scanIdentifier (strBytes kw) 0 = some (kw, (strBytes kw).length)) ∧
    parse 500 keywordIdentProg =
      .ok [⟨"lock", [⟨"if", .integer⟩],
        [⟨"unlock", [], [.unlockStmt (.varRef "else") (.varRef "verify")]⟩],
        ⟨"else", "verify"⟩⟩] :=
  ⟨by decide, rfl⟩

/-- Witness for C10: the keyword `lock` scans as a plain identifier. -/
theorem keywords_not_reserved_witness :
    scanIdentifier (strBytes "lock") 0 = some ("lock", 4) :=
  (keywords_not_reserved.1 "lock" (by decide)).trans (by decide)

end Equity

